import Mathlib

/-!
Verification of the kbar `useStore` state-management core (src/useStore.tsx).

The JavaScript code is shallowly embedded: JS objects keyed by action id
become association lists (`ActionTree`), in-place mutation of shared action
objects becomes explicit threading of the updated maps, and thrown
exceptions become `Option`/`Except` error values.  Because `registerActions`
and the returned `unregister` closure mutate action objects that are shared
with the committed snapshot, each operation is modelled as returning both
the newly committed state and the value now observed by a holder of the
pre-call snapshot (`oldSnapshot`).
-/

namespace KBar

/-- Action identifiers are strings (`ActionId` in types.ts). -/
abbrev ActionId := String

/-- An action: id, opaque display payload (`name` stands in for it), optional
parent reference and optional ordered children list (types.ts `Action`). -/
structure Action where
  id : ActionId
  name : String
  parent : Option ActionId := none
  children : Option (List ActionId) := none
deriving DecidableEq, Repr

/-- The `actions` map of the store: a JS object keyed by action id, modelled
as an association list in key insertion order. -/
abbrev ActionTree := List (ActionId × Action)

/-- JS object property read `m[k]`. -/
def lookupA : ActionTree → ActionId → Option Action
  | [], _ => none
  | (k, a) :: rest, i => if k = i then some a else lookupA rest i

/-- JS object property write `m[k] = v`: overwrites in place (keeping the key
position) or appends a new key at the end. -/
def setA : ActionTree → ActionId → Action → ActionTree
  | [], k, v => [(k, v)]
  | (k1, a1) :: rest, k, v =>
    if k1 = k then (k, v) :: rest else (k1, a1) :: setA rest k v

/-- JS `delete m[k]`. -/
def eraseA : ActionTree → ActionId → ActionTree
  | [], _ => []
  | (k1, a1) :: rest, k =>
    if k1 = k then eraseA rest k else (k1, a1) :: eraseA rest k

/-- One entry of the spread `{...a, ...b}`: a key of `a` takes `b`'s value
when `b` also has the key. -/
def overrideFrom (b : ActionTree) (p : ActionId × Action) : ActionId × Action :=
  match lookupA b p.1 with
  | some v => (p.1, v)
  | none => p

/-- JS object spread `{...a, ...b}`: keys of `a` in order (values from `b`
where present), then keys of `b` not in `a`. -/
def spreadMerge (a b : ActionTree) : ActionTree :=
  a.map (overrideFrom b) ++ b.filter (fun p => (lookupA a p.1).isNone)

/-- `actions.reduce((acc, curr) => { acc[curr.id] = curr; return acc; }, {})`
(useStore.tsx lines 53-56): the ephemeral `actionsByKey` map of a batch. -/
def buildIncoming (batch : List Action) : ActionTree :=
  batch.foldl (fun acc a => setA acc a.id a) []

/-- `if (!parent.children) parent.children = []; parent.children.push(id)`
(useStore.tsx lines 69-71): append a child id to a parent action. -/
def pushChild (p : Action) (cid : ActionId) : Action :=
  { p with children := some (p.children.getD [] ++ [cid]) }

/-- One iteration of the `actions.forEach` loop of `registerActions`
(useStore.tsx lines 59-73): resolve the parent from the committed map first,
else from the incoming batch; throw if absent in both; otherwise append the
child id to the parent's `children` unless already present.  The mutation
lands in whichever of the two maps held the parent. -/
def linkParent (s inc : ActionTree) (a : Action) :
    Except String (ActionTree × ActionTree) :=
  match a.parent with
  | none => Except.ok (s, inc)
  | some pid =>
    match lookupA s pid with
    | some p =>
      if a.id ∈ p.children.getD [] then Except.ok (s, inc)
      else Except.ok (setA s pid (pushChild p a.id), inc)
    | none =>
      match lookupA inc pid with
      | some p =>
        if a.id ∈ p.children.getD [] then Except.ok (s, inc)
        else Except.ok (s, setA inc pid (pushChild p a.id))
      | none => Except.error ("Action of id " ++ pid ++ " does not exist.")

/-- The whole `actions.forEach` loop.  On a throw, the loop stops and the
maps mutated so far are returned alongside the error message. -/
def registerLoop : List Action → ActionTree → ActionTree →
    Option String × ActionTree × ActionTree
  | [], s, inc => (none, s, inc)
  | a :: rest, s, inc =>
    match linkParent s inc a with
    | Except.error e => (some e, s, inc)
    | Except.ok (s2, inc2) => registerLoop rest s2 inc2

/-- The palette's animation phase (types.ts `VisualState`). -/
inductive VisualState where
  | hidden
  | animatingIn
  | showing
  | animatingOut
deriving DecidableEq, Repr

/-- The committed store snapshot (types.ts `KBarState`). -/
structure KBarState where
  searchQuery : String
  currentRootActionId : Option ActionId
  visualState : VisualState
  actions : ActionTree
deriving DecidableEq, Repr

/-- Result of a `registerActions` call: the error (if thrown), the state
committed after the call, and what a holder of the pre-call snapshot now
observes (the committed map's action objects are shared and mutated in
place, so the two can differ from the pre-call state). -/
structure RegRun where
  error : Option String
  newState : KBarState
  oldSnapshot : KBarState
deriving DecidableEq, Repr

/-- `registerActions` (useStore.tsx lines 52-82).  On success the new
snapshot's map is `{...actionsByKey, ...state.actions}` built from the two
mutated maps; on a throw no snapshot is committed, but the in-place
mutations to the committed map's parent objects persist. -/
def registerRun (st : KBarState) (batch : List Action) : RegRun :=
  match registerLoop batch st.actions (buildIncoming batch) with
  | (some e, s2, _) =>
    { error := some e
      newState := { st with actions := s2 }
      oldSnapshot := { st with actions := s2 } }
  | (none, s2, inc2) =>
    { error := none
      newState := { st with actions := spreadMerge inc2 s2 }
      oldSnapshot := { st with actions := s2 } }

/-- One iteration of the `removeActionIds.forEach` loop of the returned
`unregister` closure (useStore.tsx lines 88-100): look the action up fresh;
if it has a parent whose entry or `children` is missing, the early `return`
skips the rest of the iteration (including the `delete`); otherwise detach
the id from the parent's `children` and delete the id's entry. -/
def unregStep (m : ActionTree) (i : ActionId) : ActionTree :=
  match lookupA m i with
  | none => eraseA m i
  | some a =>
    match a.parent with
    | none => eraseA m i
    | some pid =>
      match lookupA m pid with
      | none => m
      | some par =>
        match par.children with
        | none => m
        | some ch =>
          eraseA (setA m pid { par with children := some (ch.filter (fun c => c != i)) }) i

/-- The whole `unregister` loop over the captured batch ids, threading the
single shared `allActions` object (useStore.tsx lines 84-106). -/
def unregisterActions (m : ActionTree) (removeIds : List ActionId) : ActionTree :=
  removeIds.foldl unregStep m

/-- The `unregister` closure at state level.  Both the newly committed state
and the old snapshot expose the same mutated map (`allActions` is
`state.actions` itself). -/
def unregisterRun (st : KBarState) (batch : List Action) : KBarState × KBarState :=
  (({ st with actions := unregisterActions st.actions (batch.map (fun a => a.id)) }),
   ({ st with actions := unregisterActions st.actions (batch.map (fun a => a.id)) }))

/-- `query.toggle` (useStore.tsx lines 133-142). -/
def toggle (st : KBarState) : KBarState :=
  { st with visualState :=
      if st.visualState ∈ [VisualState.animatingOut, VisualState.hidden] then
        VisualState.animatingIn
      else VisualState.animatingOut }

/-- `query.setSearch` (useStore.tsx lines 127-131). -/
def setSearch (st : KBarState) (searchQuery : String) : KBarState :=
  { st with searchQuery := searchQuery }

/-- `query.setCurrentRootAction` (useStore.tsx lines 113-118). -/
def setCurrentRootAction (st : KBarState) (i : Option ActionId) : KBarState :=
  { st with currentRootActionId := i }

/-- `query.setVisualState` (useStore.tsx lines 119-126): the argument is a
literal value or an updater function resolved against the current value. -/
def setVisualState (st : KBarState)
    (cb : Sum VisualState (VisualState → VisualState)) : KBarState :=
  { st with visualState :=
      match cb with
      | Sum.inl v => v
      | Sum.inr f => f st.visualState }

/-- A JavaScript value as seen by selectors and the deep-equality
comparator: `undefined`, `null`, primitives, or an array. -/
inductive JSVal where
  | undef
  | null
  | boolean (b : Bool)
  | number (n : Int)
  | string (s : String)
  | array (xs : List JSVal)

mutual

/-- The `fast-equals` `deepEqual` used for change detection: structural
value equality, arrays compared order-sensitively. -/
def deepEqual : JSVal → JSVal → Bool
  | JSVal.undef, JSVal.undef => true
  | JSVal.null, JSVal.null => true
  | JSVal.boolean a, JSVal.boolean b => a == b
  | JSVal.number a, JSVal.number b => a == b
  | JSVal.string a, JSVal.string b => a == b
  | JSVal.array xs, JSVal.array ys => deepEqualList xs ys
  | _, _ => false

/-- Elementwise deep equality of two arrays. -/
def deepEqualList : List JSVal → List JSVal → Bool
  | [], [] => true
  | x :: xs, y :: ys => deepEqual x y && deepEqualList xs ys
  | _, _ => false

end

/-- A subscriber (useStore.tsx lines 187-211): a selector over the state, a
callback, and the last collected value.  A thrown exception from either
function is modelled as an `Except.error` carrying its message. -/
structure Subscriber where
  collector : KBarState → Except String JSVal
  onChange : JSVal → Except String Unit
  collected : JSVal

/-- The `Subscriber` constructor (lines 192-195): the `collected` field is
left uninitialized, i.e. it starts as JS `undefined`. -/
def mkSubscriber (collector : KBarState → Except String JSVal)
    (onChange : JSVal → Except String Unit) : Subscriber :=
  { collector := collector, onChange := onChange, collected := JSVal.undef }

/-- What one `collect()` call did: nothing, a normal `onChange` delivery, or
a caught-and-logged exception (`console.warn`) from the selector or from
`onChange`. -/
inductive CollectEvent where
  | noChange
  | fired (v : JSVal)
  | warnedCollector (e : String)
  | warnedOnChange (v : JSVal) (e : String)

/-- `Subscriber.collect` (lines 197-210).  The whole body is inside
`try/catch`, so `collect` is total: a throw from the selector leaves the
subscriber untouched, while a throw from `onChange` happens after
`this.collected` was already assigned. -/
def collect (st : KBarState) (s : Subscriber) : Subscriber × CollectEvent :=
  match s.collector st with
  | Except.error e => (s, CollectEvent.warnedCollector e)
  | Except.ok next =>
    if deepEqual next s.collected then (s, CollectEvent.noChange)
    else
      let s2 := { s with collected := next }
      match s2.onChange next with
      | Except.error e => (s2, CollectEvent.warnedOnChange next e)
      | Except.ok _ => (s2, CollectEvent.fired next)

/-- `Publisher.notify` (lines 182-184): `subscribers.forEach(s => s.collect())`. -/
def notify (st : KBarState) : List Subscriber → List (Subscriber × CollectEvent)
  | [] => []
  | s :: rest => collect st s :: notify st rest

/-- The value `onChange` was invoked with during a `collect()` call, if any
(it is invoked even when it then throws). -/
def onChangeInvokedWith : CollectEvent → Option JSVal
  | CollectEvent.fired v => some v
  | CollectEvent.warnedOnChange v _ => some v
  | _ => none

/-! ### Derived notions used by the verification -/

/-- The fields of an action other than `children` (which is the only field
the registration loop ever mutates in place). -/
def coreOf (a : Action) : ActionId × String × Option ActionId :=
  (a.id, a.name, a.parent)

/-- Parent resolution of `registerActions`:
`state.actions[p] || actionsByKey[p]` — committed map first, else batch. -/
def resolveA (s inc : ActionTree) (pid : ActionId) : Option Action :=
  match lookupA s pid with
  | some p => some p
  | none => lookupA inc pid

/-- The number of occurrences of `cid` in the `children` of the action that
`pid` resolves to (committed map first, else batch), if it resolves. -/
def ccount (s inc : ActionTree) (pid cid : ActionId) : Option Nat :=
  match resolveA s inc pid with
  | some p => some ((p.children.getD []).count cid)
  | none => none

/-- An id whose per-id unregister iteration hits the early `return`: its
action has a parent whose entry is missing or has no `children` sequence,
so nothing at all happens for it (not even the `delete`). -/
def stuckId (m : ActionTree) (i : ActionId) : Prop :=
  ∃ a pid, lookupA m i = some a ∧ a.parent = some pid ∧
    (lookupA m pid = none ∨ ∃ par, lookupA m pid = some par ∧ par.children = none)

/-- After its own iteration an id is either gone from the map or stuck. -/
def removedOrStuck (m : ActionTree) (i : ActionId) : Prop :=
  lookupA m i = none ∨ stuckId m i

/-! ### Concrete fixtures -/

/-- An empty store snapshot. -/
def stEmpty : KBarState :=
  { searchQuery := "", currentRootActionId := none,
    visualState := VisualState.hidden, actions := [] }

/-- A lone committed action `a` with no children. -/
def act1a : Action := { id := "a", name := "A" }

/-- A snapshot whose committed map holds just `a`. -/
def st1 : KBarState := { stEmpty with actions := [("a", act1a)] }

/-- A batch whose first action links under the existing `a` and whose second
references a parent `x` that exists nowhere. -/
def batch1 : List Action :=
  [{ id := "b", name := "B", parent := some "a" },
   { id := "c", name := "C", parent := some "x" }]

/-- The committed state after registering `a` and `b` (with `b` under `a`):
`a` has accumulated `children = ["b"]`. -/
def act3a : Action := { id := "a", name := "A", parent := none, children := some ["b"] }

/-- The child action `b` of the C3 scenario. -/
def act3b : Action := { id := "b", name := "B", parent := some "a" }

/-- Committed state for the C3 scenario. -/
def st3 : KBarState := { stEmpty with actions := [("a", act3a), ("b", act3b)] }

/-- The batch (parent before child) whose unregister closure captured
`["a", "b"]`. -/
def batch3 : List Action :=
  [{ id := "a", name := "A" }, { id := "b", name := "B", parent := some "a" }]

/-- A lone committed action for the C4/C8 scenarios. -/
def act4a : Action := { id := "a", name := "A" }

/-- A snapshot committing just `a`. -/
def st4 : KBarState := { stEmpty with actions := [("a", act4a)] }

/-- A batch adding `b` under the already-committed `a`. -/
def batch4 : List Action := [{ id := "b", name := "B", parent := some "a" }]

/-- The committed action of the C5 scenario. -/
def act5a : Action := { id := "a", name := "A" }

/-- A snapshot committing just `a`. -/
def st5 : KBarState := { stEmpty with actions := [("a", act5a)] }

/-- A batch re-registering `a` with different fields and adding a new `n`. -/
def batch5 : List Action :=
  [{ id := "a", name := "A2" }, { id := "n", name := "N" }]

/-- The child of the C8 scenario, listed before its parent. -/
def act8c : Action := { id := "c", name := "C", parent := some "p" }

/-- The parent of the C8 scenario. -/
def act8p : Action := { id := "p", name := "P" }

/-- A batch registering child and parent together, child first. -/
def batch8 : List Action := [act8c, act8p]

/-- A subscriber whose selector always throws. -/
def subBoom : Subscriber :=
  mkSubscriber (fun _ => Except.error "boom") (fun _ => Except.ok Unit.unit)

/-- A well-behaved subscriber deriving the search query. -/
def subOk : Subscriber :=
  mkSubscriber (fun st => Except.ok (JSVal.string st.searchQuery))
    (fun _ => Except.ok Unit.unit)

/-- A subscriber deriving the constant `"x"` with a throwing callback. -/
def subThrowingCb : Subscriber :=
  mkSubscriber (fun _ => Except.ok (JSVal.string "x")) (fun _ => Except.error "cb")

/-! ### Basic lemmas about the JS-object operations -/

theorem lookupA_setA (m : ActionTree) (k : ActionId) (v : Action) (j : ActionId) :
    lookupA (setA m k v) j = if k = j then some v else lookupA m j := by
  induction m with
  | nil => simp [setA, lookupA]
  | cons p rest ih =>
    obtain ⟨k1, a1⟩ := p
    by_cases h1 : k1 = k
    · subst h1
      by_cases h2 : k1 = j
      · subst h2
        simp [setA, lookupA]
      · simp [setA, lookupA, h2]
    · by_cases h2 : k = j
      · subst h2
        simp [setA, lookupA, h1, ih]
      · simp [setA, lookupA, h1, ih, h2]

theorem lookupA_eraseA (m : ActionTree) (k j : ActionId) :
    lookupA (eraseA m k) j = if k = j then none else lookupA m j := by
  induction m with
  | nil => simp [eraseA, lookupA]
  | cons p rest ih =>
    obtain ⟨k1, a1⟩ := p
    by_cases h1 : k1 = k
    · subst h1
      by_cases h2 : k1 = j
      · subst h2
        simp [eraseA, lookupA, ih]
      · simp [eraseA, lookupA, ih, h2]
    · by_cases h2 : k = j
      · subst h2
        simp [eraseA, lookupA, h1, ih]
      · simp [eraseA, lookupA, h1, ih, h2]

theorem eraseA_of_lookupA_none (m : ActionTree) (k : ActionId)
    (h : lookupA m k = none) : eraseA m k = m := by
  induction m with
  | nil => rfl
  | cons p rest ih =>
    obtain ⟨k1, a1⟩ := p
    by_cases h1 : k1 = k
    · simp [lookupA, h1] at h
    · simp [lookupA, h1] at h
      simp [eraseA, h1, ih h]

mutual

theorem deepEqual_refl : (v : JSVal) → deepEqual v v = true
  | JSVal.undef => rfl
  | JSVal.null => rfl
  | JSVal.boolean b => by simp [deepEqual]
  | JSVal.number n => by simp [deepEqual]
  | JSVal.string s => by simp [deepEqual]
  | JSVal.array xs => deepEqualList_refl xs

theorem deepEqualList_refl : (l : List JSVal) → deepEqualList l l = true
  | [] => rfl
  | x :: xs => by
    simp only [deepEqualList, Bool.and_eq_true]
    exact ⟨deepEqual_refl x, deepEqualList_refl xs⟩

end

theorem notify_append (st : KBarState) (l1 l2 : List Subscriber) :
    notify st (l1 ++ l2) = notify st l1 ++ notify st l2 := by
  induction l1 with
  | nil => rfl
  | cons x xs ih => simp [notify, ih]

theorem notify_length (st : KBarState) (l : List Subscriber) :
    (notify st l).length = l.length := by
  induction l with
  | nil => rfl
  | cons x xs ih => simp [notify, ih]

/-! ### Claim theorems -/

/-- C6: `toggle()` transitions the visual state exactly as:
hidden → animatingIn, animatingOut → animatingIn,
animatingIn → animatingOut, showing → animatingOut. -/
theorem C6_toggle_transitions (st : KBarState) :
    (toggle st).visualState =
      match st.visualState with
      | VisualState.hidden => VisualState.animatingIn
      | VisualState.animatingOut => VisualState.animatingIn
      | VisualState.animatingIn => VisualState.animatingOut
      | VisualState.showing => VisualState.animatingOut := by
  cases h : st.visualState <;> simp [toggle, h]

/-- C1 (code bug): on a batch `[b → a, c → x]` with only `a` committed and
`x` unresolvable, `registerActions` does throw the reference error naming
`x`, but the committed state is NOT left unchanged: the committed action
`a` has already been mutated in place (its `children` gained `"b"`) before
the validation failure aborts the call. -/
theorem C1_partial_mutation_on_error :
    (registerRun st1 batch1).error = some "Action of id x does not exist." ∧
    (registerRun st1 batch1).newState ≠ st1 ∧
    lookupA (registerRun st1 batch1).newState.actions "a" =
      some { id := "a", name := "A", parent := none, children := some ["b"] } :=
  ⟨rfl, by decide, rfl⟩

/-- C2 counterexample: a subscriber whose selector returns `undefined` does
NOT have `onChange` invoked on its very first `collect()` — the stored
sentinel is itself `undefined`, which deep-equals the derived value, so the
claimed "first collect always fires" is false. -/
theorem C2_counterexample :
    (collect stEmpty (mkSubscriber (fun _ => Except.ok JSVal.undef)
        (fun _ => Except.ok Unit.unit))).2 = CollectEvent.noChange := rfl

/-- C2 (amended): the very first `collect()` after subscription invokes
`onChange` with the derived value if and only if that value is not
deep-equal to `undefined`; the stored last-collected value starts as the
uninitialized `undefined`, which does equal an `undefined` derived value,
in which case the first collect fires nothing. -/
theorem C2_first_collect (st : KBarState) (sel : KBarState → Except String JSVal)
    (ch : JSVal → Except String Unit) (v : JSVal)
    (h : sel st = Except.ok v) :
    (deepEqual v JSVal.undef = false →
      onChangeInvokedWith (collect st (mkSubscriber sel ch)).2 = some v) ∧
    (deepEqual v JSVal.undef = true →
      collect st (mkSubscriber sel ch) = (mkSubscriber sel ch, CollectEvent.noChange)) := by
  have hc : (mkSubscriber sel ch).collector st = Except.ok v := h
  constructor
  · intro hne
    simp only [collect, hc]
    rw [show (mkSubscriber sel ch).collected = JSVal.undef from rfl]
    rw [hne]
    simp only [Bool.false_eq_true, if_false]
    cases hch : ch v <;> simp [onChangeInvokedWith, hch, mkSubscriber]
  · intro heq
    simp only [collect, hc]
    rw [show (mkSubscriber sel ch).collected = JSVal.undef from rfl]
    rw [heq]
    simp

/-- C2 witness: a selector returning the real (non-undefined) value `"x"`
does fire `onChange` with `"x"` on the first collect. -/
theorem C2_first_collect_witness :
    onChangeInvokedWith (collect stEmpty (mkSubscriber
        (fun _ => Except.ok (JSVal.string "x"))
        (fun _ => Except.ok Unit.unit))).2 = some (JSVal.string "x") :=
  (C2_first_collect stEmpty (fun _ => Except.ok (JSVal.string "x"))
    (fun _ => Except.ok Unit.unit) (JSVal.string "x") rfl).1 rfl

/-- C9: exceptions from a subscriber's selector or `onChange` are caught at
that subscriber's boundary and logged; `notify` still invokes `collect()`
on every subscriber of the pass, in registration order, and returns one
result per subscriber. -/
theorem C9_notify_error_containment (st : KBarState) (l1 l2 : List Subscriber)
    (s : Subscriber) :
    notify st (l1 ++ s :: l2) = notify st l1 ++ collect st s :: notify st l2 ∧
    (∀ e, s.collector st = Except.error e →
      collect st s = (s, CollectEvent.warnedCollector e)) ∧
    (∀ v e, s.collector st = Except.ok v → deepEqual v s.collected = false →
      s.onChange v = Except.error e →
      collect st s = ({ s with collected := v }, CollectEvent.warnedOnChange v e)) ∧
    (notify st (l1 ++ s :: l2)).length = l1.length + 1 + l2.length := by
  refine ⟨by rw [notify_append]; rfl, ?_, ?_, ?_⟩
  · intro e he
    simp [collect, he]
  · intro v e hv hne hch
    simp only [collect, hv]
    rw [show ({ s with collected := v } : Subscriber).onChange = s.onChange from rfl]
    simp [hne, hch]
  · rw [notify_length]
    simp
    omega

/-- C9 witness: with a throwing subscriber between two healthy ones, the
pass decomposes around its caught error. -/
theorem C9_witness :
    notify stEmpty ([subOk] ++ subBoom :: [subOk]) =
      notify stEmpty [subOk] ++ collect stEmpty subBoom :: notify stEmpty [subOk] ∧
    collect stEmpty subBoom = (subBoom, CollectEvent.warnedCollector "boom") :=
  ⟨(C9_notify_error_containment stEmpty [subOk] [subOk] subBoom).1,
   (C9_notify_error_containment stEmpty [subOk] [subOk] subBoom).2.1 "boom" rfl⟩

/-- C10: when the derived value differs from the stored one and `onChange`
throws, the new value has already been stored in `collected` before the
exception; a later collect over the same derived value reports no change,
so the failed delivery is never retried. -/
theorem C10_store_before_throw (st : KBarState) (s : Subscriber) (v : JSVal)
    (e : String) (h1 : s.collector st = Except.ok v)
    (h2 : deepEqual v s.collected = false) (h3 : s.onChange v = Except.error e) :
    (collect st s).1.collected = v ∧
    (collect st s).2 = CollectEvent.warnedOnChange v e ∧
    (∀ st2, s.collector st2 = Except.ok v →
      collect st2 (collect st s).1 = ((collect st s).1, CollectEvent.noChange)) := by
  have hc : collect st s = ({ s with collected := v }, CollectEvent.warnedOnChange v e) := by
    simp only [collect, h1]
    rw [show ({ s with collected := v } : Subscriber).onChange = s.onChange from rfl]
    simp [h2, h3]
  refine ⟨by rw [hc], by rw [hc], ?_⟩
  intro st2 hcol
  rw [hc]
  simp only [collect]
  rw [show ({ s with collected := v } : Subscriber).collector = s.collector from rfl]
  rw [hcol]
  simp [deepEqual_refl]

/-- C10 witness: the throwing callback's value is stored first and the next
collect over the same value is silent. -/
theorem C10_witness :
    (collect stEmpty subThrowingCb).1.collected = JSVal.string "x" ∧
    (collect stEmpty subThrowingCb).2 =
      CollectEvent.warnedOnChange (JSVal.string "x") "cb" ∧
    (∀ st2, subThrowingCb.collector st2 = Except.ok (JSVal.string "x") →
      collect st2 (collect stEmpty subThrowingCb).1 =
        ((collect stEmpty subThrowingCb).1, CollectEvent.noChange)) :=
  C10_store_before_throw stEmpty subThrowingCb (JSVal.string "x") "cb" rfl rfl rfl

/-! ### The unregister loop: characterization and idempotence -/

theorem unregStep_of_stuck (m : ActionTree) (i : ActionId) (h : stuckId m i) :
    unregStep m i = m := by
  obtain ⟨a, pid, ha, hp, hdisj⟩ := h
  rcases hdisj with hnone | ⟨par, hpar, hch⟩
  · simp [unregStep, ha, hp, hnone]
  · simp [unregStep, ha, hp, hpar, hch]

theorem unregStep_of_none (m : ActionTree) (i : ActionId)
    (h : lookupA m i = none) : unregStep m i = m := by
  simp [unregStep, h, eraseA_of_lookupA_none m i h]

theorem lookupA_unregStep_none (m : ActionTree) (j k : ActionId)
    (h : lookupA m k = none) : lookupA (unregStep m j) k = none := by
  cases hai : lookupA m j with
  | none => simp [unregStep, hai, lookupA_eraseA, h]
  | some a =>
    cases hp : a.parent with
    | none => simp [unregStep, hai, hp, lookupA_eraseA, h]
    | some pid =>
      cases hpar : lookupA m pid with
      | none => simpa [unregStep, hai, hp, hpar] using h
      | some par =>
        cases hch : par.children with
        | none => simpa [unregStep, hai, hp, hpar, hch] using h
        | some ch =>
          have hpk : ¬ pid = k := by
            intro he
            rw [he, h] at hpar
            exact Option.noConfusion hpar
          simp [unregStep, hai, hp, hpar, hch, lookupA_eraseA, lookupA_setA, hpk, h]

theorem lookupA_unregStep_other (m : ActionTree) (j i : ActionId) (hne : ¬ j = i)
    (a : Action) (ha : lookupA m i = some a) :
    ∃ a2, lookupA (unregStep m j) i = some a2 ∧ a2.parent = a.parent := by
  cases hai : lookupA m j with
  | none => exact ⟨a, by simp [unregStep, hai, lookupA_eraseA, hne, ha], rfl⟩
  | some aj =>
    cases hp : aj.parent with
    | none => exact ⟨a, by simp [unregStep, hai, hp, lookupA_eraseA, hne, ha], rfl⟩
    | some pid =>
      cases hpar : lookupA m pid with
      | none => exact ⟨a, by simp [unregStep, hai, hp, hpar, ha], rfl⟩
      | some par =>
        cases hch : par.children with
        | none => exact ⟨a, by simp [unregStep, hai, hp, hpar, hch, ha], rfl⟩
        | some ch =>
          by_cases hpk : pid = i
          · subst hpk
            refine ⟨{ par with children := some (ch.filter (fun c => c != j)) }, ?_, ?_⟩
            · simp [unregStep, hai, hp, hpar, hch, lookupA_eraseA, lookupA_setA, hne]
            · rw [ha] at hpar
              injection hpar with hh
              rw [← hh]
          · exact ⟨a, by
              simp [unregStep, hai, hp, hpar, hch, lookupA_eraseA, lookupA_setA, hne, hpk, ha],
              rfl⟩

theorem lookupA_unregStep_childless (m : ActionTree) (j k : ActionId) (par : Action)
    (hpar : lookupA m k = some par) (hch : par.children = none) :
    lookupA (unregStep m j) k = none ∨ lookupA (unregStep m j) k = some par := by
  cases hai : lookupA m j with
  | none =>
    by_cases hk : j = k
    · subst hk
      rw [hai] at hpar
      exact Option.noConfusion hpar
    · exact Or.inr (by simp [unregStep, hai, lookupA_eraseA, hk, hpar])
  | some aj =>
    cases hp : aj.parent with
    | none =>
      by_cases hk : j = k
      · subst hk
        exact Or.inl (by simp [unregStep, hai, hp, lookupA_eraseA])
      · exact Or.inr (by simp [unregStep, hai, hp, lookupA_eraseA, hk, hpar])
    | some pid =>
      cases hpar2 : lookupA m pid with
      | none => exact Or.inr (by simpa [unregStep, hai, hp, hpar2] using hpar)
      | some parj =>
        cases hch2 : parj.children with
        | none => exact Or.inr (by simpa [unregStep, hai, hp, hpar2, hch2] using hpar)
        | some chj =>
          have hpk : ¬ pid = k := by
            intro he
            rw [he, hpar] at hpar2
            cases hpar2
            rw [hch] at hch2
            exact Option.noConfusion hch2
          by_cases hk : j = k
          · subst hk
            exact Or.inl (by simp [unregStep, hai, hp, hpar2, hch2, lookupA_eraseA])
          · exact Or.inr (by
              simp [unregStep, hai, hp, hpar2, hch2, lookupA_eraseA, lookupA_setA, hk, hpk, hpar])

theorem removedOrStuck_step (m : ActionTree) (i j : ActionId)
    (h : removedOrStuck m i) : removedOrStuck (unregStep m j) i := by
  rcases h with hnone | hstuck
  · exact Or.inl (lookupA_unregStep_none m j i hnone)
  · by_cases hji : j = i
    · subst hji
      rw [unregStep_of_stuck m j hstuck]
      exact Or.inr hstuck
    · obtain ⟨a, pid, ha, hp, hdisj⟩ := hstuck
      obtain ⟨a2, ha2, hp2⟩ := lookupA_unregStep_other m j i hji a ha
      refine Or.inr ⟨a2, pid, ha2, hp2.trans hp, ?_⟩
      rcases hdisj with hnone | ⟨par, hpar, hch⟩
      · exact Or.inl (lookupA_unregStep_none m j pid hnone)
      · rcases lookupA_unregStep_childless m j pid par hpar hch with h1 | h1
        · exact Or.inl h1
        · exact Or.inr ⟨par, h1, hch⟩

theorem removedOrStuck_fold (ids : List ActionId) : ∀ m i, removedOrStuck m i →
    removedOrStuck (List.foldl unregStep m ids) i := by
  induction ids with
  | nil => exact fun m i h => h
  | cons j rest ih => exact fun m i h => ih _ _ (removedOrStuck_step m i j h)

theorem removedOrStuck_self (m : ActionTree) (i : ActionId) :
    removedOrStuck (unregStep m i) i := by
  cases ha : lookupA m i with
  | none => exact Or.inl (lookupA_unregStep_none m i i ha)
  | some a =>
    cases hp : a.parent with
    | none => exact Or.inl (by simp [unregStep, ha, hp, lookupA_eraseA])
    | some pid =>
      cases hpar : lookupA m pid with
      | none =>
        rw [unregStep_of_stuck m i ⟨a, pid, ha, hp, Or.inl hpar⟩]
        exact Or.inr ⟨a, pid, ha, hp, Or.inl hpar⟩
      | some par =>
        cases hch : par.children with
        | none =>
          rw [unregStep_of_stuck m i ⟨a, pid, ha, hp, Or.inr ⟨par, hpar, hch⟩⟩]
          exact Or.inr ⟨a, pid, ha, hp, Or.inr ⟨par, hpar, hch⟩⟩
        | some ch =>
          exact Or.inl (by simp [unregStep, ha, hp, hpar, hch, lookupA_eraseA])

theorem removedOrStuck_unregister (ids : List ActionId) : ∀ m i, i ∈ ids →
    removedOrStuck (unregisterActions m ids) i := by
  induction ids with
  | nil =>
    intro m i h
    cases h
  | cons j rest ih =>
    intro m i h
    by_cases hir : i ∈ rest
    · exact ih (unregStep m j) i hir
    · have hij : i = j := by
        rcases List.mem_cons.mp h with h1 | h1
        · exact h1
        · exact absurd h1 hir
      subst hij
      exact removedOrStuck_fold rest (unregStep m i) i (removedOrStuck_self m i)

theorem foldl_unregStep_fixed (ids : List ActionId) :
    ∀ m, (∀ i, i ∈ ids → unregStep m i = m) → List.foldl unregStep m ids = m := by
  induction ids with
  | nil => exact fun m _ => rfl
  | cons j rest ih =>
    intro m h
    have hj : unregStep m j = m := h j (List.mem_cons_self j rest)
    show List.foldl unregStep (unregStep m j) rest = m
    rw [hj]
    exact ih m (fun i hi => h i (List.mem_cons_of_mem j hi))

/-! ### C3 and C7 -/

/-- C3 counterexample: unregistering the batch `{a, b}` removes `a`, but
`b` is NOT removed from the committed map — when `b`'s iteration runs, its
parent `a` is already gone, and the early `return` skips the `delete` too,
contradicting "the id itself is still removed from the map". -/
theorem C3_counterexample :
    lookupA (unregisterRun st3 batch3).1.actions "b" = some act3b ∧
    lookupA (unregisterRun st3 batch3).1.actions "a" = none :=
  ⟨rfl, rfl⟩

/-- C3 (amended): unregister folds the per-id step over the captured ids in
order; for each id, looked up fresh: an absent id is a no-op; an id without
a parent is simply removed; an id whose parent entry or parent `children`
is missing at that moment is skipped entirely — it stays in the map; and an
id whose parent has a `children` sequence is filtered out of those children
and removed from the map, all other entries untouched. -/
theorem C3_unregister_step_behaviour (st : KBarState) (batch : List Action)
    (m : ActionTree) (i : ActionId) :
    (unregisterRun st batch).1.actions =
      List.foldl unregStep st.actions (batch.map (fun a => a.id)) ∧
    (lookupA m i = none → unregStep m i = m) ∧
    (∀ a, lookupA m i = some a → a.parent = none →
      lookupA (unregStep m i) i = none ∧
      ∀ j, ¬ j = i → lookupA (unregStep m i) j = lookupA m j) ∧
    (∀ a pid, lookupA m i = some a → a.parent = some pid →
      lookupA m pid = none → unregStep m i = m) ∧
    (∀ a pid par, lookupA m i = some a → a.parent = some pid →
      lookupA m pid = some par → par.children = none → unregStep m i = m) ∧
    (∀ a pid par ch, lookupA m i = some a → a.parent = some pid →
      lookupA m pid = some par → par.children = some ch →
      lookupA (unregStep m i) i = none ∧
      (¬ pid = i → lookupA (unregStep m i) pid =
        some { par with children := some (ch.filter (fun c => c != i)) }) ∧
      (∀ j, ¬ j = i → ¬ j = pid → lookupA (unregStep m i) j = lookupA m j)) := by
  refine ⟨rfl, fun h => unregStep_of_none m i h, ?_, ?_, ?_, ?_⟩
  · intro a ha hp
    constructor
    · simp [unregStep, ha, hp, lookupA_eraseA]
    · intro j hj
      simp [unregStep, ha, hp, lookupA_eraseA, Ne.symm hj]
  · intro a pid ha hp hpar
    exact unregStep_of_stuck m i ⟨a, pid, ha, hp, Or.inl hpar⟩
  · intro a pid par ha hp hpar hch
    exact unregStep_of_stuck m i ⟨a, pid, ha, hp, Or.inr ⟨par, hpar, hch⟩⟩
  · intro a pid par ch ha hp hpar hch
    refine ⟨?_, ?_, ?_⟩
    · simp [unregStep, ha, hp, hpar, hch, lookupA_eraseA]
    · intro hpi
      simp [unregStep, ha, hp, hpar, hch, lookupA_eraseA, lookupA_setA, Ne.symm hpi]
    · intro j hji hjp
      simp [unregStep, ha, hp, hpar, hch, lookupA_eraseA, lookupA_setA,
        Ne.symm hji, Ne.symm hjp]

/-- C3 witness: in the committed C3 state, unregistering `b` alone detaches
it from `a`'s children and removes it; and on the map where `a` is already
gone, the step for `b` is a complete no-op (the id survives). -/
theorem C3_witness :
    lookupA (unregStep st3.actions "b") "b" = none ∧
    lookupA (unregStep st3.actions "b") "a" =
      some { act3a with children := some (["b"].filter (fun c => c != "b")) } ∧
    unregStep [("b", act3b)] "b" = [("b", act3b)] := by
  have h1 := (C3_unregister_step_behaviour st3 batch3 st3.actions
    "b").2.2.2.2.2 act3b "a" act3a ["b"] rfl rfl rfl rfl
  have h2 := (C3_unregister_step_behaviour st3 batch3 [("b", act3b)]
    "b").2.2.2.1 act3b "a" rfl rfl rfl
  exact ⟨h1.1, h1.2.1 (by decide), h2⟩

/-- C7: applying a batch's unregister function a second time yields exactly
the committed state of the first application — unregistration is
idempotent. -/
theorem C7_unregister_idempotent (st : KBarState) (batch : List Action) :
    (unregisterRun (unregisterRun st batch).1 batch).1 = (unregisterRun st batch).1 := by
  have key : ∀ i, i ∈ batch.map (fun a => a.id) →
      unregStep (unregisterActions st.actions (batch.map (fun a => a.id))) i =
        unregisterActions st.actions (batch.map (fun a => a.id)) := by
    intro i hi
    rcases removedOrStuck_unregister (batch.map (fun a => a.id)) st.actions i hi with h | h
    · exact unregStep_of_none _ i h
    · exact unregStep_of_stuck _ i h
  have hfix : unregisterActions (unregisterActions st.actions (batch.map (fun a => a.id)))
      (batch.map (fun a => a.id)) =
      unregisterActions st.actions (batch.map (fun a => a.id)) := by
    simp only [unregisterActions]
    exact foldl_unregStep_fixed (batch.map (fun a => a.id)) _ key
  simp [unregisterRun, unregisterActions] at hfix ⊢
  rw [hfix]

/-! ### The registration loop: merge and linking lemmas -/

theorem lookupA_append (l1 l2 : ActionTree) (j : ActionId) :
    lookupA (l1 ++ l2) j =
      match lookupA l1 j with
      | some v => some v
      | none => lookupA l2 j := by
  induction l1 with
  | nil => rfl
  | cons p rest ih =>
    obtain ⟨k1, a1⟩ := p
    by_cases h : k1 = j
    · simp [lookupA, h]
    · simp [lookupA, h, ih]

theorem lookupA_map_override (a b : ActionTree) (j : ActionId) :
    lookupA (a.map (overrideFrom b)) j =
      match lookupA a j with
      | some v => some ((lookupA b j).getD v)
      | none => none := by
  induction a with
  | nil => rfl
  | cons p rest ih =>
    obtain ⟨k1, a1⟩ := p
    by_cases h : k1 = j
    · subst h
      cases hb : lookupA b k1 <;> simp [overrideFrom, lookupA, hb]
    · cases hb : lookupA b k1 <;> simp [overrideFrom, lookupA, hb, h, ih]

theorem lookupA_filterNone (a b : ActionTree) (j : ActionId) :
    lookupA (b.filter (fun p => (lookupA a p.1).isNone)) j =
      match lookupA a j with
      | some _ => none
      | none => lookupA b j := by
  induction b with
  | nil => cases lookupA a j <;> rfl
  | cons p rest ih =>
    obtain ⟨k1, b1⟩ := p
    by_cases h : k1 = j
    · subst h
      cases ha : lookupA a k1 <;> simp [List.filter, lookupA, ha, ih]
    · cases ha : lookupA a k1 <;> cases haj : lookupA a j <;>
        simp [List.filter, lookupA, ha, haj, h, ih]

theorem lookupA_spreadMerge (a b : ActionTree) (j : ActionId) :
    lookupA (spreadMerge a b) j =
      match lookupA b j with
      | some v => some v
      | none => lookupA a j := by
  simp only [spreadMerge, lookupA_append, lookupA_map_override, lookupA_filterNone]
  cases ha : lookupA a j <;> cases hb : lookupA b j <;> simp [ha, hb]

theorem lookupA_spreadMerge_resolveA (inc s : ActionTree) (j : ActionId) :
    lookupA (spreadMerge inc s) j = resolveA s inc j := by
  rw [lookupA_spreadMerge]
  cases h : lookupA s j <;> simp [resolveA, h]

theorem buildIncoming_mem (batch : List Action) :
    ∀ acc j, (lookupA (batch.foldl (fun m a => setA m a.id a) acc) j).isSome = true ↔
      (j ∈ batch.map (fun a => a.id) ∨ (lookupA acc j).isSome = true) := by
  induction batch with
  | nil =>
    intro acc j
    simp
  | cons x rest ih =>
    intro acc j
    rw [show (x :: rest).foldl (fun m a => setA m a.id a) acc =
      rest.foldl (fun m a => setA m a.id a) (setA acc x.id x) from rfl]
    rw [ih]
    by_cases h : x.id = j
    · simp [lookupA_setA, h]
    · simp [lookupA_setA, h, Ne.symm h]

theorem buildIncoming_isSome (batch : List Action) (j : ActionId) :
    (lookupA (buildIncoming batch) j).isSome = true ↔
      j ∈ batch.map (fun a => a.id) := by
  rw [buildIncoming, buildIncoming_mem]
  simp [lookupA]

theorem linkParent_inv (s inc s2 inc2 : ActionTree) (a : Action)
    (h : linkParent s inc a = Except.ok (s2, inc2)) :
    (a.parent = none ∧ s2 = s ∧ inc2 = inc) ∨
    (∃ pid p, a.parent = some pid ∧ resolveA s inc pid = some p ∧
      a.id ∈ p.children.getD [] ∧ s2 = s ∧ inc2 = inc) ∨
    (∃ pid p, a.parent = some pid ∧ lookupA s pid = some p ∧
      ¬ a.id ∈ p.children.getD [] ∧ s2 = setA s pid (pushChild p a.id) ∧ inc2 = inc) ∨
    (∃ pid p, a.parent = some pid ∧ lookupA s pid = none ∧ lookupA inc pid = some p ∧
      ¬ a.id ∈ p.children.getD [] ∧ s2 = s ∧ inc2 = setA inc pid (pushChild p a.id)) := by
  cases hp : a.parent with
  | none =>
    simp only [linkParent, hp, Except.ok.injEq, Prod.mk.injEq] at h
    exact Or.inl ⟨rfl, h.1.symm, h.2.symm⟩
  | some pid =>
    cases hs : lookupA s pid with
    | some p =>
      by_cases hmem : a.id ∈ p.children.getD []
      · simp only [linkParent, hp, hs, if_pos hmem, Except.ok.injEq, Prod.mk.injEq] at h
        exact Or.inr (Or.inl ⟨pid, p, rfl, by simp [resolveA, hs], hmem, h.1.symm, h.2.symm⟩)
      · simp only [linkParent, hp, hs, if_neg hmem, Except.ok.injEq, Prod.mk.injEq] at h
        exact Or.inr (Or.inr (Or.inl ⟨pid, p, rfl, hs, hmem, h.1.symm, h.2.symm⟩))
    | none =>
      cases hi : lookupA inc pid with
      | some p =>
        by_cases hmem : a.id ∈ p.children.getD []
        · simp only [linkParent, hp, hs, hi, if_pos hmem, Except.ok.injEq, Prod.mk.injEq] at h
          exact Or.inr (Or.inl ⟨pid, p, rfl, by simp [resolveA, hs, hi], hmem, h.1.symm, h.2.symm⟩)
        · simp only [linkParent, hp, hs, hi, if_neg hmem, Except.ok.injEq, Prod.mk.injEq] at h
          exact Or.inr (Or.inr (Or.inr ⟨pid, p, rfl, hs, hi, hmem, h.1.symm, h.2.symm⟩))
      | none =>
        simp [linkParent, hp, hs, hi] at h

theorem linkParent_isSome (s inc s2 inc2 : ActionTree) (a : Action)
    (h : linkParent s inc a = Except.ok (s2, inc2)) (j : ActionId) :
    (lookupA s2 j).isSome = (lookupA s j).isSome ∧
    (lookupA inc2 j).isSome = (lookupA inc j).isSome := by
  rcases linkParent_inv s inc s2 inc2 a h with
    ⟨_, rfl, rfl⟩ | ⟨pid, p, _, _, _, rfl, rfl⟩ |
    ⟨pid, p, _, hs, _, rfl, rfl⟩ | ⟨pid, p, _, _, hi, _, rfl, rfl⟩
  · exact ⟨rfl, rfl⟩
  · exact ⟨rfl, rfl⟩
  · refine ⟨?_, rfl⟩
    rw [lookupA_setA]
    by_cases hj : pid = j
    · subst hj
      simp [hs]
    · simp [hj]
  · refine ⟨rfl, ?_⟩
    rw [lookupA_setA]
    by_cases hj : pid = j
    · subst hj
      simp [hi]
    · simp [hj]

theorem linkParent_core (s inc s2 inc2 : ActionTree) (a : Action)
    (h : linkParent s inc a = Except.ok (s2, inc2)) (j : ActionId) :
    Option.map coreOf (lookupA s2 j) = Option.map coreOf (lookupA s j) ∧
    Option.map coreOf (lookupA inc2 j) = Option.map coreOf (lookupA inc j) := by
  rcases linkParent_inv s inc s2 inc2 a h with
    ⟨_, rfl, rfl⟩ | ⟨pid, p, _, _, _, rfl, rfl⟩ |
    ⟨pid, p, _, hs, _, rfl, rfl⟩ | ⟨pid, p, _, _, hi, _, rfl, rfl⟩
  · exact ⟨rfl, rfl⟩
  · exact ⟨rfl, rfl⟩
  · refine ⟨?_, rfl⟩
    rw [lookupA_setA]
    by_cases hj : pid = j
    · subst hj
      simp [hs, pushChild, coreOf]
    · simp [hj]
  · refine ⟨rfl, ?_⟩
    rw [lookupA_setA]
    by_cases hj : pid = j
    · subst hj
      simp [hi, pushChild, coreOf]
    · simp [hj]

theorem linkParent_untouched (s inc s2 inc2 : ActionTree) (a : Action)
    (h : linkParent s inc a = Except.ok (s2, inc2)) (j : ActionId)
    (hj : ¬ a.parent = some j) : lookupA s2 j = lookupA s j := by
  rcases linkParent_inv s inc s2 inc2 a h with
    ⟨_, rfl, rfl⟩ | ⟨pid, p, _, _, _, rfl, rfl⟩ |
    ⟨pid, p, hp, hs, _, rfl, rfl⟩ | ⟨pid, p, _, _, hi, _, rfl, rfl⟩
  · rfl
  · rfl
  · rw [lookupA_setA]
    have : ¬ pid = j := fun he => hj (he ▸ hp)
    simp [this]
  · rfl

theorem registerLoop_inv_cons (x : Action) (rest : List Action)
    (s inc : ActionTree) (s2 inc2 : ActionTree)
    (h : registerLoop (x :: rest) s inc = (none, s2, inc2)) :
    ∃ s1 inc1, linkParent s inc x = Except.ok (s1, inc1) ∧
      registerLoop rest s1 inc1 = (none, s2, inc2) := by
  cases hl : linkParent s inc x with
  | error e =>
    simp [registerLoop, hl] at h
  | ok pr =>
    obtain ⟨s1, inc1⟩ := pr
    exact ⟨s1, inc1, rfl, by simpa [registerLoop, hl] using h⟩

theorem registerLoop_isSome (batch : List Action) :
    ∀ s inc s2 inc2, registerLoop batch s inc = (none, s2, inc2) → ∀ j,
      (lookupA s2 j).isSome = (lookupA s j).isSome ∧
      (lookupA inc2 j).isSome = (lookupA inc j).isSome := by
  induction batch with
  | nil =>
    intro s inc s2 inc2 h j
    simp only [registerLoop, Prod.mk.injEq] at h
    rw [h.2.1, h.2.2]
    exact ⟨rfl, rfl⟩
  | cons x rest ih =>
    intro s inc s2 inc2 h j
    obtain ⟨s1, inc1, hl, hrest⟩ := registerLoop_inv_cons x rest s inc s2 inc2 h
    obtain ⟨h1, h2⟩ := linkParent_isSome s inc s1 inc1 x hl j
    obtain ⟨h3, h4⟩ := ih s1 inc1 s2 inc2 hrest j
    exact ⟨h3.trans h1, h4.trans h2⟩

theorem registerLoop_core (batch : List Action) :
    ∀ s inc s2 inc2, registerLoop batch s inc = (none, s2, inc2) → ∀ j,
      Option.map coreOf (lookupA s2 j) = Option.map coreOf (lookupA s j) ∧
      Option.map coreOf (lookupA inc2 j) = Option.map coreOf (lookupA inc j) := by
  induction batch with
  | nil =>
    intro s inc s2 inc2 h j
    simp only [registerLoop, Prod.mk.injEq] at h
    rw [h.2.1, h.2.2]
    exact ⟨rfl, rfl⟩
  | cons x rest ih =>
    intro s inc s2 inc2 h j
    obtain ⟨s1, inc1, hl, hrest⟩ := registerLoop_inv_cons x rest s inc s2 inc2 h
    obtain ⟨h1, h2⟩ := linkParent_core s inc s1 inc1 x hl j
    obtain ⟨h3, h4⟩ := ih s1 inc1 s2 inc2 hrest j
    exact ⟨h3.trans h1, h4.trans h2⟩

theorem registerLoop_untouched (batch : List Action) :
    ∀ s inc s2 inc2, registerLoop batch s inc = (none, s2, inc2) → ∀ j,
      (∀ x, x ∈ batch → ¬ x.parent = some j) → lookupA s2 j = lookupA s j := by
  induction batch with
  | nil =>
    intro s inc s2 inc2 h j _
    simp only [registerLoop, Prod.mk.injEq] at h
    rw [h.2.1]
  | cons x rest ih =>
    intro s inc s2 inc2 h j hall
    obtain ⟨s1, inc1, hl, hrest⟩ := registerLoop_inv_cons x rest s inc s2 inc2 h
    have h1 := linkParent_untouched s inc s1 inc1 x hl j
      (hall x (List.mem_cons_self x rest))
    have h2 := ih s1 inc1 s2 inc2 hrest j
      (fun y hy => hall y (List.mem_cons_of_mem x hy))
    exact h2.trans h1

/-- C5: when all parent references resolve, the merge keeps the previously
committed entry for every id in both maps: committed entries keep their
`id`, payload and `parent` fields (and are byte-identical when no batch
action links under them), and only ids absent from the committed map are
added, exactly those of the batch. -/
theorem C5_existing_entry_wins (st : KBarState) (batch : List Action)
    (h : (registerRun st batch).error = none) :
    (∀ j a, lookupA st.actions j = some a →
      ∃ a2, lookupA (registerRun st batch).newState.actions j = some a2 ∧
        a2.id = a.id ∧ a2.name = a.name ∧ a2.parent = a.parent) ∧
    (∀ j a, lookupA st.actions j = some a →
      (∀ x, x ∈ batch → ¬ x.parent = some j) →
      lookupA (registerRun st batch).newState.actions j = some a) ∧
    (∀ j, lookupA st.actions j = none →
      ((lookupA (registerRun st batch).newState.actions j).isSome = true ↔
        j ∈ batch.map (fun a => a.id))) := by
  rcases hloop : registerLoop batch st.actions (buildIncoming batch) with ⟨err, s2, inc2⟩
  cases err with
  | some e =>
    rw [show (registerRun st batch).error = some e by simp [registerRun, hloop]] at h
    exact Option.noConfusion h
  | none =>
    have hnew : (registerRun st batch).newState.actions = spreadMerge inc2 s2 := by
      simp [registerRun, hloop]
    refine ⟨?_, ?_, ?_⟩
    · intro j a ha
      have hcore := (registerLoop_core batch st.actions (buildIncoming batch) s2 inc2 hloop j).1
      rw [ha] at hcore
      obtain ⟨a2, ha2, hc⟩ := Option.map_eq_some'.mp hcore
      refine ⟨a2, ?_, ?_, ?_, ?_⟩
      · rw [hnew, lookupA_spreadMerge_resolveA]
        simp [resolveA, ha2]
      · exact congrArg Prod.fst hc
      · exact congrArg (fun q => q.2.1) hc
      · exact congrArg (fun q => q.2.2) hc
    · intro j a ha hunt
      have := registerLoop_untouched batch st.actions (buildIncoming batch) s2 inc2 hloop j hunt
      rw [hnew, lookupA_spreadMerge_resolveA]
      simp [resolveA, this, ha]
    · intro j hj
      have hs := (registerLoop_isSome batch st.actions (buildIncoming batch) s2 inc2 hloop j).1
      have hi := (registerLoop_isSome batch st.actions (buildIncoming batch) s2 inc2 hloop j).2
      rw [hj] at hs
      have hs2 : lookupA s2 j = none := by
        cases hlk : lookupA s2 j with
        | none => rfl
        | some v => rw [hlk] at hs; simp at hs
      rw [hnew, lookupA_spreadMerge_resolveA]
      simp only [resolveA, hs2]
      rw [← buildIncoming_isSome batch j, ← hi]

/-- C5 witness: re-registering `a` with different fields keeps the committed
entry; the genuinely new id `n` is added. -/
theorem C5_witness :
    (∃ a2, lookupA (registerRun st5 batch5).newState.actions "a" = some a2 ∧
      a2.id = act5a.id ∧ a2.name = act5a.name ∧ a2.parent = act5a.parent) ∧
    lookupA (registerRun st5 batch5).newState.actions "a" = some act5a ∧
    ((lookupA (registerRun st5 batch5).newState.actions "n").isSome = true ↔
      "n" ∈ batch5.map (fun a => a.id)) := by
  have h := C5_existing_entry_wins st5 batch5 (by decide)
  refine ⟨h.1 "a" act5a rfl, h.2.1 "a" act5a rfl ?_, h.2.2 "n" rfl⟩
  intro x hx
  simp only [batch5, List.mem_cons, List.not_mem_nil, or_false] at hx
  rcases hx with rfl | rfl <;> decide

/-- C4 counterexample: after a successful `registerActions([{id:"b",
parent:"a"}])`, a holder of the pre-call snapshot no longer sees the
pre-call value — the shared committed action `a` was mutated in place
(its `children` now holds `"b"`), so the claimed immutability of previously
committed snapshots is false. -/
theorem C4_counterexample :
    (registerRun st4 batch4).error = none ∧
    (registerRun st4 batch4).oldSnapshot ≠ st4 ∧
    lookupA (registerRun st4 batch4).oldSnapshot.actions "a" =
      some { id := "a", name := "A", parent := none, children := some ["b"] } :=
  ⟨rfl, by decide, rfl⟩

/-- C4 (amended): each transition replaces only the top-level snapshot
record — the old snapshot's scalar fields stay intact — but the `actions`
map and its action objects are shared: after a successful `registerActions`
the old snapshot agrees with the new one on every previously committed id
(including freshly mutated parents), and `unregister` leaves the holder of
the old snapshot observing exactly the newly committed map; the plain
setters touch nothing inside `actions`. -/
theorem C4_wholesale_replacement (st : KBarState) (batch : List Action)
    (q : String) (r : Option ActionId)
    (cb : Sum VisualState (VisualState → VisualState)) :
    ((registerRun st batch).oldSnapshot.searchQuery = st.searchQuery ∧
     (registerRun st batch).oldSnapshot.currentRootActionId = st.currentRootActionId ∧
     (registerRun st batch).oldSnapshot.visualState = st.visualState) ∧
    ((registerRun st batch).error = none →
      ∀ j a, lookupA st.actions j = some a →
        lookupA (registerRun st batch).oldSnapshot.actions j =
          lookupA (registerRun st batch).newState.actions j) ∧
    (unregisterRun st batch).2 = (unregisterRun st batch).1 ∧
    (setSearch st q).actions = st.actions ∧
    (setCurrentRootAction st r).actions = st.actions ∧
    (setVisualState st cb).actions = st.actions ∧
    (toggle st).actions = st.actions := by
  rcases hloop : registerLoop batch st.actions (buildIncoming batch) with ⟨err, s2, inc2⟩
  refine ⟨?_, ?_, rfl, rfl, rfl, rfl, rfl⟩
  · cases err <;> simp [registerRun, hloop]
  · intro herr j a ha
    cases err with
    | some e =>
      rw [show (registerRun st batch).error = some e by simp [registerRun, hloop]] at herr
      exact Option.noConfusion herr
    | none =>
      have hold : (registerRun st batch).oldSnapshot.actions = s2 := by
        simp [registerRun, hloop]
      have hnew : (registerRun st batch).newState.actions = spreadMerge inc2 s2 := by
        simp [registerRun, hloop]
      have hs := (registerLoop_isSome batch st.actions (buildIncoming batch) s2 inc2 hloop j).1
      rw [ha] at hs
      cases hlk : lookupA s2 j with
      | none => rw [hlk] at hs; simp at hs
      | some v =>
        rw [hold, hnew, lookupA_spreadMerge_resolveA]
        simp [resolveA, hlk]

/-! ### Linking a parent and child registered in one batch (C8) -/

theorem ccount_linkParent_other (s inc s2 inc2 : ActionTree) (a : Action)
    (pid cid : ActionId) (hne : ¬ a.id = cid)
    (h : linkParent s inc a = Except.ok (s2, inc2)) :
    ccount s2 inc2 pid cid = ccount s inc pid cid := by
  rcases linkParent_inv s inc s2 inc2 a h with
    ⟨_, rfl, rfl⟩ | ⟨pa, p, _, _, _, rfl, rfl⟩ |
    ⟨pa, p, _, hs, _, rfl, rfl⟩ | ⟨pa, p, _, hs, hi, _, rfl, rfl⟩
  · rfl
  · rfl
  · by_cases hpp : pa = pid
    · subst hpp
      simp [ccount, resolveA, lookupA_setA, hs, pushChild,
        List.count_append, List.count_cons, hne]
    · simp [ccount, resolveA, lookupA_setA, hpp]
  · by_cases hpp : pa = pid
    · subst hpp
      simp [ccount, resolveA, lookupA_setA, hs, hi, pushChild,
        List.count_append, List.count_cons, hne]
    · cases hsp : lookupA s2 pid <;>
        simp [ccount, resolveA, hsp, lookupA_setA, hpp]

theorem ccount_linkParent_self (s inc s2 inc2 : ActionTree) (c : Action)
    (pid : ActionId) (hp : c.parent = some pid)
    (h : linkParent s inc c = Except.ok (s2, inc2))
    (hcc : (ccount s inc pid c.id).getD 0 ≤ 1) :
    ccount s2 inc2 pid c.id = some 1 := by
  rcases linkParent_inv s inc s2 inc2 c h with
    ⟨hpn, rfl, rfl⟩ | ⟨pa, p, hpa, hres, hmem, rfl, rfl⟩ |
    ⟨pa, p, hpa, hs, hmem, rfl, rfl⟩ | ⟨pa, p, hpa, hs, hi, hmem, rfl, rfl⟩
  · rw [hp] at hpn
    exact Option.noConfusion hpn
  · rw [hp] at hpa
    injection hpa with hpp
    subst hpp
    have h1 : ccount s2 inc2 pid c.id = some ((p.children.getD []).count c.id) := by
      simp [ccount, hres]
    rw [h1] at hcc
    simp only [Option.getD_some] at hcc
    have h2 : 0 < (p.children.getD []).count c.id := List.count_pos_iff.mpr hmem
    have h3 : (p.children.getD []).count c.id = 1 := Nat.le_antisymm hcc h2
    rw [h1, h3]
  · rw [hp] at hpa
    injection hpa with hpp
    subst hpp
    have h0 : (p.children.getD []).count c.id = 0 := List.count_eq_zero.mpr hmem
    simp [ccount, resolveA, lookupA_setA, pushChild,
      List.count_append, List.count_cons, h0]
  · rw [hp] at hpa
    injection hpa with hpp
    subst hpp
    have h0 : (p.children.getD []).count c.id = 0 := List.count_eq_zero.mpr hmem
    simp [ccount, resolveA, hs, lookupA_setA, pushChild,
      List.count_append, List.count_cons, h0]

theorem ccount_registerLoop_other (batch : List Action) (pid cid : ActionId) :
    ∀ s inc s2 inc2, registerLoop batch s inc = (none, s2, inc2) →
      (∀ x, x ∈ batch → ¬ x.id = cid) →
      ccount s2 inc2 pid cid = ccount s inc pid cid := by
  induction batch with
  | nil =>
    intro s inc s2 inc2 h _
    simp only [registerLoop, Prod.mk.injEq] at h
    rw [h.2.1, h.2.2]
  | cons x rest ih =>
    intro s inc s2 inc2 h hall
    obtain ⟨s1, inc1, hl, hrest⟩ := registerLoop_inv_cons x rest s inc s2 inc2 h
    have h1 := ccount_linkParent_other s inc s1 inc1 x pid cid
      (hall x (List.mem_cons_self x rest)) hl
    have h2 := ih s1 inc1 s2 inc2 hrest
      (fun y hy => hall y (List.mem_cons_of_mem x hy))
    exact h2.trans h1

theorem ccount_registerLoop_self (batch : List Action) (c : Action) (pid : ActionId)
    (hp : c.parent = some pid) :
    ∀ s inc s2 inc2, registerLoop batch s inc = (none, s2, inc2) →
      c ∈ batch → (batch.map (fun a => a.id)).count c.id = 1 →
      (ccount s inc pid c.id).getD 0 ≤ 1 →
      ccount s2 inc2 pid c.id = some 1 := by
  induction batch with
  | nil =>
    intro s inc s2 inc2 _ hc
    cases hc
  | cons x rest ih =>
    intro s inc s2 inc2 h hc hcount hcc
    obtain ⟨s1, inc1, hl, hrest⟩ := registerLoop_inv_cons x rest s inc s2 inc2 h
    rw [List.map_cons, List.count_cons] at hcount
    by_cases hxc : x.id = c.id
    · have hx0 : (rest.map (fun a => a.id)).count c.id = 0 := by
        rw [if_pos (by simpa using hxc)] at hcount
        omega
      have hrest0 : ∀ y, y ∈ rest → ¬ y.id = c.id := by
        intro y hy hyid
        have : c.id ∈ rest.map (fun a => a.id) :=
          hyid ▸ List.mem_map_of_mem (fun a => a.id) hy
        have := List.count_pos_iff.mpr this
        omega
      have hcx : c = x ∨ c ∈ rest := List.mem_cons.mp hc
      have hcx2 : linkParent s inc x = Except.ok (s1, inc1) := hl
      have hhead : ccount s1 inc1 pid c.id = some 1 := by
        rcases hcx with rfl | hcr
        · exact ccount_linkParent_self s inc s1 inc1 c pid hp hl hcc
        · exact absurd rfl (hrest0 c hcr)
      rw [ccount_registerLoop_other rest pid c.id s1 inc1 s2 inc2 hrest hrest0]
      exact hhead
    · have hcr : c ∈ rest := by
        rcases List.mem_cons.mp hc with h1 | h1
        · exact absurd (congrArg Action.id h1.symm) hxc
        · exact h1
      have hcount' : (rest.map (fun a => a.id)).count c.id = 1 := by
        rw [if_neg (by simpa using hxc)] at hcount
        omega
      have hpres := ccount_linkParent_other s inc s1 inc1 x pid c.id hxc hl
      exact ih s1 inc1 s2 inc2 hrest hcr hcount' (by rw [hpres]; exact hcc)

theorem linkParent_of_linked (s inc : ActionTree) (a : Action) (pid : ActionId)
    (p : Action) (hp : a.parent = some pid) (hres : resolveA s inc pid = some p)
    (hmem : a.id ∈ p.children.getD []) :
    linkParent s inc a = Except.ok (s, inc) := by
  cases hs : lookupA s pid with
  | some q =>
    have hq : q = p := by
      simpa [resolveA, hs] using hres
    subst hq
    simp [linkParent, hp, hs, hmem]
  | none =>
    have hi : lookupA inc pid = some p := by
      simpa [resolveA, hs] using hres
    simp [linkParent, hp, hs, hi, hmem]

theorem registerLoop_of_all_linked (batch : List Action) : ∀ s inc,
    (∀ x, x ∈ batch → ∀ px, x.parent = some px →
      ∃ p, resolveA s inc px = some p ∧ x.id ∈ p.children.getD []) →
    registerLoop batch s inc = (none, s, inc) := by
  induction batch with
  | nil =>
    intro s inc _
    rfl
  | cons x rest ih =>
    intro s inc h
    have hx : linkParent s inc x = Except.ok (s, inc) := by
      cases hpx : x.parent with
      | none => simp [linkParent, hpx]
      | some px =>
        obtain ⟨p, hres, hmem⟩ := h x (List.mem_cons_self x rest) px hpx
        exact linkParent_of_linked s inc x px p hpx hres hmem
    calc registerLoop (x :: rest) s inc = registerLoop rest s inc := by
          simp [registerLoop, hx]
      _ = (none, s, inc) := ih s inc (fun y hy => h y (List.mem_cons_of_mem x hy))

theorem registerRun_linked (st : KBarState) (batch : List Action) (c : Action)
    (pid : ActionId) (h : (registerRun st batch).error = none)
    (hc : c ∈ batch) (hp : c.parent = some pid)
    (hcount : (batch.map (fun a => a.id)).count c.id = 1)
    (hinit : (ccount st.actions (buildIncoming batch) pid c.id).getD 0 ≤ 1) :
    ∃ p, lookupA (registerRun st batch).newState.actions pid = some p ∧
      (p.children.getD []).count c.id = 1 := by
  rcases hloop : registerLoop batch st.actions (buildIncoming batch) with ⟨err, s2, inc2⟩
  cases err with
  | some e =>
    rw [show (registerRun st batch).error = some e by simp [registerRun, hloop]] at h
    exact Option.noConfusion h
  | none =>
    have hcc := ccount_registerLoop_self batch c pid hp st.actions
      (buildIncoming batch) s2 inc2 hloop hc hcount hinit
    have hnew : (registerRun st batch).newState.actions = spreadMerge inc2 s2 := by
      simp [registerRun, hloop]
    rw [hnew, lookupA_spreadMerge_resolveA]
    cases hres : resolveA s2 inc2 pid with
    | none => simp [ccount, hres] at hcc
    | some p =>
      refine ⟨p, rfl, ?_⟩
      simpa [ccount, hres] using hcc

/-- C8: for a batch carrying a child and its parent together (either order)
whose references all resolve, once the call commits the parent's `children`
holds the child's id exactly once; and re-registering the same batch is a
no-op on the registration loop: it succeeds and leaves the parent's entry
(children included) unchanged. -/
theorem C8_parent_child_same_batch (st : KBarState) (batch : List Action)
    (c : Action) (pid : ActionId)
    (h : (registerRun st batch).error = none)
    (hc : c ∈ batch) (hp : c.parent = some pid)
    (hall : ∀ x, x ∈ batch → ∀ px, x.parent = some px →
      (batch.map (fun a => a.id)).count x.id = 1 ∧
      (ccount st.actions (buildIncoming batch) px x.id).getD 0 ≤ 1) :
    (∃ p, lookupA (registerRun st batch).newState.actions pid = some p ∧
      (p.children.getD []).count c.id = 1) ∧
    (registerRun (registerRun st batch).newState batch).error = none ∧
    lookupA (registerRun (registerRun st batch).newState batch).newState.actions pid =
      lookupA (registerRun st batch).newState.actions pid := by
  have hlinked : ∀ x, x ∈ batch → ∀ px, x.parent = some px →
      ∃ p, resolveA (registerRun st batch).newState.actions (buildIncoming batch) px =
        some p ∧ x.id ∈ p.children.getD [] := by
    intro x hx px hpx
    obtain ⟨h1, h2⟩ := hall x hx px hpx
    obtain ⟨p, hlook, hcnt⟩ := registerRun_linked st batch x px h hx hpx h1 h2
    refine ⟨p, by simp [resolveA, hlook], ?_⟩
    exact List.count_pos_iff.mp (by omega)
  have hrun2 : registerLoop batch (registerRun st batch).newState.actions
      (buildIncoming batch) =
      (none, (registerRun st batch).newState.actions, buildIncoming batch) :=
    registerLoop_of_all_linked batch _ _ hlinked
  obtain ⟨p, hlook, hcnt⟩ := registerRun_linked st batch c pid h hc hp
    (hall c hc pid hp).1 (hall c hc pid hp).2
  set st1 := (registerRun st batch).newState with hst1
  refine ⟨⟨p, hlook, hcnt⟩, ?_, ?_⟩
  · show (registerRun st1 batch).error = none
    simp [registerRun, hrun2]
  · show lookupA (registerRun st1 batch).newState.actions pid = lookupA st1.actions pid
    have hact : (registerRun st1 batch).newState.actions =
        spreadMerge (buildIncoming batch) st1.actions := by
      simp [registerRun, hrun2]
    rw [hact, lookupA_spreadMerge_resolveA]
    simp [resolveA, hlook]

/-- C8 witness: registering `[c (parent p), p]` — child listed before its
parent — links `c` under `p` exactly once, and re-registering the same
batch succeeds and changes nothing at `p`. -/
theorem C8_witness :
    (∃ p, lookupA (registerRun stEmpty batch8).newState.actions "p" = some p ∧
      (p.children.getD []).count "c" = 1) ∧
    (registerRun (registerRun stEmpty batch8).newState batch8).error = none ∧
    lookupA (registerRun (registerRun stEmpty batch8).newState batch8).newState.actions "p" =
      lookupA (registerRun stEmpty batch8).newState.actions "p" := by
  refine C8_parent_child_same_batch stEmpty batch8 act8c "p" rfl (by decide) rfl ?_
  intro x hx px hpx
  simp only [batch8, List.mem_cons, List.not_mem_nil, or_false] at hx
  rcases hx with rfl | rfl
  · rw [show act8c.parent = some "p" from rfl] at hpx
    injection hpx with hpp
    subst hpp
    exact ⟨by decide, by decide⟩
  · rw [show act8p.parent = (none : Option ActionId) from rfl] at hpx
    exact Option.noConfusion hpx

/-- C4 witness: the old snapshot shows the same (mutated) entry for `a` as
the new one, and a setter leaves the map alone. -/
theorem C4_witness :
    lookupA (registerRun st4 batch4).oldSnapshot.actions "a" =
      lookupA (registerRun st4 batch4).newState.actions "a" ∧
    (setSearch st4 "fresh").actions = st4.actions :=
  ⟨(C4_wholesale_replacement st4 batch4 "fresh" none (Sum.inl VisualState.hidden)).2.1
      rfl "a" act4a rfl,
   (C4_wholesale_replacement st4 batch4 "fresh" none (Sum.inl VisualState.hidden)).2.2.2.1⟩

end KBar
